import Mathlib

/-!
Verification of the pershing chat application's context-window, throttling,
intent-analysis, prompt-crafting and chat-provider logic, shallowly embedded
from the Python sources under `app/`.

Python lists become `List`, Python `int` indices in slices become `Int`
(Python slice/insert indices may be negative), `datetime` timestamps become
`Nat` minutes, dictionaries with a fixed key set become structures, and
fallible code returns `Except`.
-/

namespace Pershing

/-! ### Python list primitives

`pySliceFrom s l` is Python `l[s:]`: a negative start counts from the end
(clamped at 0), a non-negative start drops that many elements. -/

def pySliceFrom (s : Int) (l : List α) : List α :=
  if s < 0 then l.drop (l.length - (-s).toNat) else l.drop s.toNat

/-- Python `l.insert(i, x)`: a negative index counts from the end (clamped
at 0), an index past the end appends. -/
def pyInsert (i : Int) (x : α) (l : List α) : List α :=
  let n : Nat := if i < 0 then l.length - (-i).toNat else min i.toNat l.length
  l.take n ++ x :: l.drop n

theorem mem_pyInsert {x e : α} {i : Int} {l : List α} :
    e ∈ pyInsert i x l ↔ e = x ∨ e ∈ l := by
  unfold pyInsert
  constructor
  · intro h
    rcases List.mem_append.mp h with h1 | h2
    · exact Or.inr (List.take_subset _ _ h1)
    · rcases List.mem_cons.mp h2 with h3 | h4
      · exact Or.inl h3
      · exact Or.inr (List.drop_subset _ _ h4)
  · intro h
    rcases h with rfl | h2
    · exact List.mem_append.mpr (Or.inr (List.mem_cons_self _ _))
    · rcases List.mem_append.mp ((List.take_append_drop _ l) ▸ h2) with h3 | h4
      · exact List.mem_append.mpr (Or.inl h3)
      · exact List.mem_append.mpr (Or.inr (List.mem_cons_of_mem _ h4))

theorem pySliceFrom_neg_of_pos {k : Nat} (hk : 1 ≤ k) (l : List α) :
    pySliceFrom (-(k : Int)) l = l.drop (l.length - k) := by
  unfold pySliceFrom
  have hneg : -(k : Int) < 0 := by omega
  simp [hneg]

/-! ### Data model: `app/models.py`

Only the `Message` columns the context-window manager reads are modelled:
`role`, `content`, `content_type` and `file_path`.  A conversation's
messages are given as a list already sorted by `created_at` ascending,
standing for the `Message.query...order_by(created_at.asc())` result. -/

structure Message where
  role : String
  content : String
  content_type : String
  file_path : Option String
  deriving DecidableEq, Repr

/-- `Message.is_file_message` from `app/models.py`. -/
def Message.is_file_message (m : Message) : Bool :=
  (m.content_type == "image" || m.content_type == "file") && m.file_path.isSome

/-- One dictionary of the context list built by `ContextWindowManager`;
every construction site produces exactly these four keys. -/
structure CtxEntry where
  role : String
  content : String
  content_type : String
  file_path : Option String
  deriving DecidableEq, Repr

/-- The dictionary `{'role': ..., 'content': ..., 'content_type': ...,
'file_path': msg.file_path if msg.is_file_message() else None}` built in
each strategy of `app/context_window_manager.py`. -/
def toContextEntry (m : Message) : CtxEntry :=
  { role := m.role
    content := m.content
    content_type := m.content_type
    file_path := if m.is_file_message then m.file_path else none }

/-! ### `app/context_window_manager.py` -/

def default_max_messages : Nat := 20

def default_max_tokens : Nat := 6000

/-- `ContextWindowManager._estimate_tokens`: `len(text) // 4 + 1`. -/
def estimate_tokens (text : String) : Nat :=
  text.length / 4 + 1

/-- `ContextWindowManager._get_all_messages`. -/
def get_all_messages (msgs : List Message) : List CtxEntry :=
  msgs.map toContextEntry

/-- `ContextWindowManager._get_recent_messages`.  The recent slice is
`all_messages[-(max_messages-3):]`, whose Python start index is the integer
`3 - max_messages`. -/
def get_recent_messages (max_messages : Nat) (msgs : List Message) : List CtxEntry :=
  let selected :=
    if msgs.length ≤ max_messages then msgs
    else if max_messages * 2 < msgs.length then
      msgs.take 3 ++ pySliceFrom (3 - (max_messages : Int)) msgs
    else
      pySliceFrom (-(max_messages : Int)) msgs
  selected.map toContextEntry

/-- `ContextWindowManager._get_sliding_window`; the `overlap` parameter is
accepted and never read, as in the source. -/
def get_sliding_window (window_size overlap : Nat) (msgs : List Message) : List CtxEntry :=
  let selected :=
    if msgs.length ≤ window_size then msgs
    else pySliceFrom (-(window_size : Int)) msgs
  selected.map toContextEntry

/-- The first loop of `_get_token_aware_context`: each of the first three
messages is appended when it still fits the budget.  Returns the context
so far together with the running `estimated_tokens`. -/
def token_aware_system_pass (max_tokens : Nat) (system_messages : List Message) :
    List CtxEntry × Nat :=
  system_messages.foldl
    (fun acc m =>
      let t := estimate_tokens m.content
      if acc.2 + t ≤ max_tokens then (acc.1 ++ [toContextEntry m], acc.2 + t) else acc)
    ([], 0)

/-- The second loop of `_get_token_aware_context`: walks the remaining
messages newest first, inserting each at Python index
`-len(system_messages)` while it fits, and stops at the first message that
would exceed the budget (`break`). -/
def token_aware_recent_pass (max_tokens sysLen : Nat) :
    List Message → List CtxEntry → Nat → List CtxEntry
  | [], ctx, _ => ctx
  | m :: rest, ctx, tok =>
    let t := estimate_tokens m.content
    if tok + t ≤ max_tokens then
      token_aware_recent_pass max_tokens sysLen rest
        (pyInsert (-(sysLen : Int)) (toContextEntry m) ctx) (tok + t)
    else ctx

/-- `ContextWindowManager._get_token_aware_context`. -/
def get_token_aware_context (max_tokens : Nat) (msgs : List Message) : List CtxEntry :=
  let system_messages := msgs.take 3
  let init := token_aware_system_pass max_tokens system_messages
  token_aware_recent_pass max_tokens system_messages.length
    (msgs.drop 3).reverse init.1 init.2

/-- The strategy dispatch of `ContextWindowManager.get_context`, with each
strategy's keyword arguments. -/
inductive Strategy where
  | all
  | recent (max_messages : Nat)
  | sliding (window_size overlap : Nat)
  | semantic (current_message : String)
  | token_aware (max_tokens : Nat)

/-- `ContextWindowManager.get_context`; `semantic` falls back to
`_get_recent_messages` with the default window. -/
def get_context (msgs : List Message) : Strategy → List CtxEntry
  | .all => get_all_messages msgs
  | .recent mm => get_recent_messages mm msgs
  | .sliding ws ov => get_sliding_window ws ov msgs
  | .semantic _ => get_recent_messages default_max_messages msgs
  | .token_aware mt => get_token_aware_context mt msgs

/-- Estimated token total of a built context, message by message. -/
def ctxTokens (l : List CtxEntry) : Nat :=
  (l.map (fun e => estimate_tokens e.content)).sum

/-! ### Concrete conversations used as counterexamples and witnesses -/

def msgN (i : Nat) : Message :=
  { role := "user", content := toString i, content_type := "text", file_path := none }

def msgs7 : List Message :=
  [msgN 0, msgN 1, msgN 2, msgN 3, msgN 4, msgN 5, msgN 6]

def msgs11 : List Message :=
  [msgN 0, msgN 1, msgN 2, msgN 3, msgN 4, msgN 5, msgN 6, msgN 7, msgN 8, msgN 9, msgN 10]

def msgs4 : List Message :=
  [msgN 0, msgN 1, msgN 2, msgN 3]

def msgs1 : List Message :=
  [msgN 0]

/-! ### C1: the `recent` strategy -/

/-- C1 counterexample: for `max_messages = 3` a conversation of 7 messages
(7 > 2·3) yields a context of 10 entries, not `max_messages = 3`: the
Python slice `all_messages[-(3-3):]` is the whole list, so the claimed
shape "first 3 followed by the most recent `max_messages - 3`" fails. -/
theorem recent_messages_cex :
    msgs7.length = 7 ∧ 2 * 3 < msgs7.length ∧
    (get_recent_messages 3 msgs7).length = 10 ∧
    (get_recent_messages 3 msgs7).length ≠ 3 := by
  refine ⟨rfl, by decide, rfl, by decide⟩

/-- C1 (amended): provided `max_messages ≥ 4`, a conversation longer than
`2·max_messages` yields exactly the first 3 messages followed by the most
recent `max_messages - 3`, with total length `max_messages`; a
conversation of at most `max_messages` messages is returned whole; and in
between, the trailing `max_messages` messages are returned. -/
theorem recent_messages_spec (mm : Nat) (msgs : List Message) :
    (msgs.length ≤ mm → get_recent_messages mm msgs = msgs.map toContextEntry) ∧
    (4 ≤ mm → mm * 2 < msgs.length →
      get_recent_messages mm msgs
        = (msgs.take 3 ++ msgs.drop (msgs.length - (mm - 3))).map toContextEntry ∧
      (get_recent_messages mm msgs).length = mm) ∧
    (mm < msgs.length → msgs.length ≤ mm * 2 →
      get_recent_messages mm msgs = (msgs.drop (msgs.length - mm)).map toContextEntry) := by
  refine ⟨?_, ?_, ?_⟩
  · intro h
    simp [get_recent_messages, h]
  · intro h4 h2
    have hgt : ¬ msgs.length ≤ mm := by omega
    have hcast : (3 - (mm : Int)) = -(((mm - 3 : Nat) : Int)) := by
      push_cast [Nat.cast_sub (by omega : 3 ≤ mm)]
      ring
    have hk : 1 ≤ mm - 3 := by omega
    have hsel : get_recent_messages mm msgs
        = (msgs.take 3 ++ msgs.drop (msgs.length - (mm - 3))).map toContextEntry := by
      simp only [get_recent_messages, if_neg hgt, if_pos h2, hcast,
        pySliceFrom_neg_of_pos hk]
    refine ⟨hsel, ?_⟩
    rw [hsel]
    simp only [List.length_map, List.length_append, List.length_take, List.length_drop]
    omega
  · intro hlt hle
    have hgt : ¬ msgs.length ≤ mm := by omega
    have hgt2 : ¬ mm * 2 < msgs.length := by omega
    have hk : 1 ≤ mm := by omega
    simp only [get_recent_messages, if_neg hgt, if_neg hgt2, pySliceFrom_neg_of_pos hk]

/-- C1 witness: the three branches of `recent_messages_spec` at concrete
conversations (11 messages with `max_messages = 5`, and 4 messages with
`max_messages = 5` resp. `max_messages = 3`). -/
theorem recent_messages_spec_witness :
    get_recent_messages 5 msgs11 = (msgs11.take 3 ++ msgs11.drop 9).map toContextEntry ∧
    (get_recent_messages 5 msgs11).length = 5 ∧
    get_recent_messages 5 msgs4 = msgs4.map toContextEntry ∧
    get_recent_messages 3 msgs4 = (msgs4.drop 1).map toContextEntry := by
  refine ⟨?_, ?_, ?_, ?_⟩
  · exact ((recent_messages_spec 5 msgs11).2.1 (by decide) (by decide)).1
  · exact ((recent_messages_spec 5 msgs11).2.1 (by decide) (by decide)).2
  · exact (recent_messages_spec 5 msgs4).1 (by decide)
  · exact (recent_messages_spec 3 msgs4).2.2 (by decide) (by decide)

/-! ### C9: the `sliding` strategy -/

/-- C9 counterexample: with `window_size = 0` and a one-message
conversation, the Python slice `all_messages[-0:]` is the whole list, so
one entry is returned instead of the claimed `min(total, window_size) = 0`
messages. -/
theorem sliding_window_cex :
    get_sliding_window 0 5 msgs1 = msgs1.map toContextEntry ∧
    (get_sliding_window 0 5 msgs1).length = 1 ∧
    min msgs1.length 0 = 0 := by
  refine ⟨rfl, rfl, rfl⟩

/-- C9 (amended): the `overlap` argument never affects the result, and
provided `window_size ≥ 1` the result is the most recent
`min(total, window_size)` messages in chronological order. -/
theorem sliding_window_spec (ws ov : Nat) (msgs : List Message) :
    get_sliding_window ws ov msgs = get_sliding_window ws 0 msgs ∧
    (1 ≤ ws →
      get_sliding_window ws ov msgs = (msgs.drop (msgs.length - ws)).map toContextEntry ∧
      (get_sliding_window ws ov msgs).length = min msgs.length ws) := by
  refine ⟨rfl, ?_⟩
  intro hws
  by_cases h : msgs.length ≤ ws
  · have hdrop : msgs.length - ws = 0 := by omega
    constructor
    · simp [get_sliding_window, h, hdrop]
    · simp only [get_sliding_window, if_pos h, List.length_map]
      omega
  · have hsel : get_sliding_window ws ov msgs
        = (msgs.drop (msgs.length - ws)).map toContextEntry := by
      simp only [get_sliding_window, if_neg h, pySliceFrom_neg_of_pos hws]
    refine ⟨hsel, ?_⟩
    rw [hsel]
    simp only [List.length_map, List.length_drop]
    omega

/-- C9 witness: `sliding_window_spec` at `window_size = 2`, two different
overlaps and a four-message conversation. -/
theorem sliding_window_spec_witness :
    get_sliding_window 2 7 msgs4 = get_sliding_window 2 0 msgs4 ∧
    get_sliding_window 2 7 msgs4 = (msgs4.drop 2).map toContextEntry ∧
    (get_sliding_window 2 7 msgs4).length = min msgs4.length 2 := by
  refine ⟨(sliding_window_spec 2 7 msgs4).1,
    ((sliding_window_spec 2 7 msgs4).2 (by decide)).1,
    ((sliding_window_spec 2 7 msgs4).2 (by decide)).2⟩

/-! ### C2: the `token_aware` strategy never exceeds the budget -/

theorem ctxTokens_append (l1 l2 : List CtxEntry) :
    ctxTokens (l1 ++ l2) = ctxTokens l1 + ctxTokens l2 := by
  simp [ctxTokens]

theorem ctxTokens_pyInsert (i : Int) (x : CtxEntry) (l : List CtxEntry) :
    ctxTokens (pyInsert i x l) = estimate_tokens x.content + ctxTokens l := by
  unfold pyInsert
  set n : Nat := if i < 0 then l.length - (-i).toNat else min i.toNat l.length with hn
  simp only [ctxTokens, List.map_append, List.sum_append, List.map_cons, List.sum_cons,
    List.map_take, List.map_drop]
  rw [← List.sum_take_add_sum_drop (l.map fun e => estimate_tokens e.content) n]
  omega

theorem token_aware_system_pass_inv (max_tokens : Nat) (sys : List Message) :
    ctxTokens (token_aware_system_pass max_tokens sys).1
        = (token_aware_system_pass max_tokens sys).2 ∧
    (token_aware_system_pass max_tokens sys).2 ≤ max_tokens := by
  suffices h : ∀ (l : List Message) (acc : List CtxEntry × Nat),
      ctxTokens acc.1 = acc.2 → acc.2 ≤ max_tokens →
      ctxTokens (l.foldl
        (fun acc m =>
          let t := estimate_tokens m.content
          if acc.2 + t ≤ max_tokens then (acc.1 ++ [toContextEntry m], acc.2 + t) else acc)
        acc).1
        = (l.foldl
        (fun acc m =>
          let t := estimate_tokens m.content
          if acc.2 + t ≤ max_tokens then (acc.1 ++ [toContextEntry m], acc.2 + t) else acc)
        acc).2 ∧
      (l.foldl
        (fun acc m =>
          let t := estimate_tokens m.content
          if acc.2 + t ≤ max_tokens then (acc.1 ++ [toContextEntry m], acc.2 + t) else acc)
        acc).2 ≤ max_tokens by
    exact h sys ([], 0) rfl (Nat.zero_le _)
  intro l
  induction l with
  | nil => intro acc h1 h2; exact ⟨h1, h2⟩
  | cons m rest ih =>
    intro acc h1 h2
    simp only [List.foldl_cons]
    by_cases hfit : acc.2 + estimate_tokens m.content ≤ max_tokens
    · rw [if_pos hfit]
      refine ih _ ?_ hfit
      show ctxTokens (acc.1 ++ [toContextEntry m]) = acc.2 + estimate_tokens m.content
      rw [ctxTokens_append, h1]
      simp [ctxTokens, toContextEntry]
    · rw [if_neg hfit]
      exact ih acc h1 h2

theorem token_aware_recent_pass_le (max_tokens sysLen : Nat) :
    ∀ (pending : List Message) (ctx : List CtxEntry) (tok : Nat),
      ctxTokens ctx = tok → tok ≤ max_tokens →
      ctxTokens (token_aware_recent_pass max_tokens sysLen pending ctx tok) ≤ max_tokens := by
  intro pending
  induction pending with
  | nil => intro ctx tok h1 h2; simpa [token_aware_recent_pass, h1] using h2
  | cons m rest ih =>
    intro ctx tok h1 h2
    simp only [token_aware_recent_pass]
    by_cases hfit : tok + estimate_tokens m.content ≤ max_tokens
    · rw [if_pos hfit]
      refine ih _ _ ?_ hfit
      rw [ctxTokens_pyInsert, h1]
      simp [toContextEntry]
      omega
    · rw [if_neg hfit, h1] at *
      simpa [h1] using h2

/-- C2: for every conversation and budget, the estimated token total
(`len(content) // 4 + 1` per entry) of the `token_aware` context never
exceeds `max_tokens`. -/
theorem token_aware_budget (max_tokens : Nat) (msgs : List Message) :
    ctxTokens (get_context msgs (.token_aware max_tokens)) ≤ max_tokens := by
  unfold get_context get_token_aware_context
  obtain ⟨h1, h2⟩ := token_aware_system_pass_inv max_tokens (msgs.take 3)
  exact token_aware_recent_pass_le max_tokens (msgs.take 3).length
    (msgs.drop 3).reverse _ _ h1 h2

/-! ### C10: shape of every context entry, under every strategy -/

theorem toContextEntry_file_path (m : Message) :
    ((toContextEntry m).file_path ≠ none →
      (m.content_type = "image" ∨ m.content_type = "file") ∧
      (toContextEntry m).file_path = m.file_path) ∧
    (¬ ((m.content_type = "image" ∨ m.content_type = "file") ∧ m.file_path ≠ none) →
      (toContextEntry m).file_path = none) := by
  by_cases h : m.is_file_message = true
  · have h' := h
    simp only [Message.is_file_message, Bool.and_eq_true, Bool.or_eq_true, beq_iff_eq,
      Option.isSome_iff_exists] at h'
    obtain ⟨hct, p, hp⟩ := h'
    constructor
    · intro _
      exact ⟨hct, by simp [toContextEntry, h]⟩
    · intro hcon
      exact absurd ⟨hct, by simp [hp]⟩ hcon
  · constructor
    · intro hne
      exact absurd (by simp [toContextEntry, h]) hne
    · intro _
      simp [toContextEntry, h]

theorem mem_map_toContextEntry_of_sub {sel msgs : List Message} {e : CtxEntry}
    (hsub : sel ⊆ msgs) (he : e ∈ sel.map toContextEntry) :
    ∃ m ∈ msgs, e = toContextEntry m := by
  obtain ⟨m, hm, rfl⟩ := List.mem_map.mp he
  exact ⟨m, hsub hm, rfl⟩

theorem pySliceFrom_subset (s : Int) (l : List α) : pySliceFrom s l ⊆ l := by
  unfold pySliceFrom
  by_cases h : s < 0 <;> simp [h, List.drop_subset]

theorem mem_token_aware_recent_pass (max_tokens sysLen : Nat) (S : List Message) :
    ∀ (pending : List Message) (ctx : List CtxEntry) (tok : Nat),
      (∀ e ∈ ctx, ∃ m ∈ S, e = toContextEntry m) →
      (∀ m ∈ pending, m ∈ S) →
      ∀ e ∈ token_aware_recent_pass max_tokens sysLen pending ctx tok,
        ∃ m ∈ S, e = toContextEntry m := by
  intro pending
  induction pending with
  | nil => intro ctx tok hctx _ e he; exact hctx e he
  | cons m rest ih =>
    intro ctx tok hctx hpend e he
    simp only [token_aware_recent_pass] at he
    by_cases hfit : tok + estimate_tokens m.content ≤ max_tokens
    · rw [if_pos hfit] at he
      refine ih _ _ ?_ (fun x hx => hpend x (List.mem_cons_of_mem _ hx)) e he
      intro e' he'
      rcases mem_pyInsert.mp he' with rfl | h2
      · exact ⟨m, hpend m (List.mem_cons_self _ _), rfl⟩
      · exact hctx e' h2
    · rw [if_neg hfit] at he
      exact hctx e he

theorem mem_token_aware_system_pass (max_tokens : Nat) (sys : List Message) :
    ∀ e ∈ (token_aware_system_pass max_tokens sys).1, ∃ m ∈ sys, e = toContextEntry m := by
  suffices h : ∀ (l : List Message) (S : List Message) (acc : List CtxEntry × Nat),
      (∀ e ∈ acc.1, ∃ m ∈ S, e = toContextEntry m) →
      (∀ m ∈ l, m ∈ S) →
      ∀ e ∈ (l.foldl
        (fun acc m =>
          let t := estimate_tokens m.content
          if acc.2 + t ≤ max_tokens then (acc.1 ++ [toContextEntry m], acc.2 + t) else acc)
        acc).1, ∃ m ∈ S, e = toContextEntry m by
    exact h sys sys ([], 0) (by simp) (fun m hm => hm)
  intro l
  induction l with
  | nil => intro S acc hacc _ e he; exact hacc e he
  | cons m rest ih =>
    intro S acc hacc hl e he
    simp only [List.foldl_cons] at he
    by_cases hfit : acc.2 + estimate_tokens m.content ≤ max_tokens
    · rw [if_pos hfit] at he
      refine ih S _ ?_ (fun x hx => hl x (List.mem_cons_of_mem _ hx)) e he
      intro e' he'
      rcases List.mem_append.mp he' with h1 | h2
      · exact hacc e' h1
      · rcases List.mem_singleton.mp h2 with rfl
        exact ⟨m, hl m (List.mem_cons_self _ _), rfl⟩
    · rw [if_neg hfit] at he
      exact ih S acc hacc (fun x hx => hl x (List.mem_cons_of_mem _ hx)) e he

/-- C10: under every strategy, each returned entry is exactly the
four-field dictionary built from one of the conversation's messages, and
its `file_path` is non-`None` only for a message whose `content_type` is
`'image'` or `'file'` with a stored non-null path; otherwise it is
`None`. -/
theorem context_entry_shape (s : Strategy) (msgs : List Message) (e : CtxEntry)
    (he : e ∈ get_context msgs s) :
    ∃ m ∈ msgs, e = toContextEntry m ∧
      (e.file_path ≠ none →
        (m.content_type = "image" ∨ m.content_type = "file") ∧ e.file_path = m.file_path) ∧
      (¬ ((m.content_type = "image" ∨ m.content_type = "file") ∧ m.file_path ≠ none) →
        e.file_path = none) := by
  suffices h : ∃ m ∈ msgs, e = toContextEntry m by
    obtain ⟨m, hm, rfl⟩ := h
    exact ⟨m, hm, rfl, (toContextEntry_file_path m).1, (toContextEntry_file_path m).2⟩
  cases s with
  | all =>
    exact mem_map_toContextEntry_of_sub (fun x hx => hx) he
  | recent mm =>
    simp only [get_context, get_recent_messages] at he
    split at he
    · exact mem_map_toContextEntry_of_sub (fun x hx => hx) he
    · split at he
      · refine mem_map_toContextEntry_of_sub ?_ he
        intro x hx
        rcases List.mem_append.mp hx with h1 | h2
        · exact List.take_subset _ _ h1
        · exact pySliceFrom_subset _ _ h2
      · exact mem_map_toContextEntry_of_sub (pySliceFrom_subset _ _) he
  | sliding ws ov =>
    simp only [get_context, get_sliding_window] at he
    split at he
    · exact mem_map_toContextEntry_of_sub (fun x hx => hx) he
    · exact mem_map_toContextEntry_of_sub (pySliceFrom_subset _ _) he
  | semantic cm =>
    simp only [get_context, get_recent_messages] at he
    split at he
    · exact mem_map_toContextEntry_of_sub (fun x hx => hx) he
    · split at he
      · refine mem_map_toContextEntry_of_sub ?_ he
        intro x hx
        rcases List.mem_append.mp hx with h1 | h2
        · exact List.take_subset _ _ h1
        · exact pySliceFrom_subset _ _ h2
      · exact mem_map_toContextEntry_of_sub (pySliceFrom_subset _ _) he
  | token_aware mt =>
    simp only [get_context, get_token_aware_context] at he
    refine mem_token_aware_recent_pass mt (msgs.take 3).length msgs
      (msgs.drop 3).reverse _ _ ?_ ?_ e he
    · intro e' he'
      obtain ⟨m, hm, hme⟩ := mem_token_aware_system_pass mt (msgs.take 3) e' he'
      exact ⟨m, List.take_subset _ _ hm, hme⟩
    · intro m hm
      exact List.drop_subset _ _ (List.mem_reverse.mp hm)

/-- C10 witness: `context_entry_shape` applied to a concrete one-message
conversation under the `all` strategy. -/
theorem context_entry_shape_witness :
    (toContextEntry (msgN 0) ∈ get_context msgs1 .all) ∧
    ∃ m ∈ msgs1, toContextEntry (msgN 0) = toContextEntry m ∧
      ((toContextEntry (msgN 0)).file_path ≠ none →
        (m.content_type = "image" ∨ m.content_type = "file") ∧
        (toContextEntry (msgN 0)).file_path = m.file_path) ∧
      (¬ ((m.content_type = "image" ∨ m.content_type = "file") ∧ m.file_path ≠ none) →
        (toContextEntry (msgN 0)).file_path = none) := by
  have hmem : toContextEntry (msgN 0) ∈ get_context msgs1 .all := by
    simp [get_context, get_all_messages, msgs1]
  exact ⟨hmem, context_entry_shape .all msgs1 (toContextEntry (msgN 0)) hmem⟩

/-! ### `app/throttling_service.py`

Timestamps are modelled as `Nat` minutes, matching the minute-granularity
configuration (`window_minutes`, `block_minutes`) of the service.  The
`attempts` defaultdict becomes a total function from keys to attempt
lists that defaults to `[]`. -/

structure Attempt where
  timestamp : Nat
  blocked_until : Option Nat
  deriving DecidableEq, Repr

structure ThrottleConfig where
  max_attempts : Nat
  window_minutes : Nat
  block_minutes : Nat
  deriving DecidableEq, Repr

def initiate_auth_config : ThrottleConfig :=
  { max_attempts := 5, window_minutes := 60, block_minutes := 30 }

def verify_code_config : ThrottleConfig :=
  { max_attempts := 10, window_minutes := 60, block_minutes := 60 }

/-- `self.config.get(action, self.config['initiate_auth'])`. -/
def config_for (action : String) : ThrottleConfig :=
  if action = "initiate_auth" then initiate_auth_config
  else if action = "verify_code" then verify_code_config
  else initiate_auth_config

/-- A key of the `attempts` dict: `(identifier, identifier_type, action)`. -/
abbrev ThrottleKey := String × String × String

def AttemptsMap : Type := ThrottleKey → List Attempt

def emptyAttempts : AttemptsMap := fun _ => []

/-- `InMemoryThrottlingService._cleanup_old_attempts`: drops attempts whose
timestamp is before `now - window_minutes`. -/
def cleanup_old_attempts (now : Nat) (s : AttemptsMap) (key : ThrottleKey) : AttemptsMap :=
  let cfg := config_for key.2.2
  fun k =>
    if k = key then
      (s key).filter (fun a => now - cfg.window_minutes ≤ a.timestamp)
    else s k

/-- The block test of `check_throttling`: the last attempt carries a
`blocked_until` strictly in the future. -/
def last_block_active (now : Nat) (attempts : List Attempt) : Bool :=
  match attempts.getLast? with
  | some a =>
    match a.blocked_until with
    | some b => decide (now < b)
    | none => false
  | none => false

/-- `InMemoryThrottlingService.check_throttling`: after pruning, reports
throttled when the last attempt carries an unexpired block, or when the
attempt count has reached `max_attempts` (in which case a block entry is
appended). -/
def check_throttling (now : Nat) (s : AttemptsMap) (id idt action : String) :
    Bool × AttemptsMap :=
  let cfg := config_for action
  let key : ThrottleKey := (id, idt, action)
  let s1 := cleanup_old_attempts now s key
  let attempts := s1 key
  if last_block_active now attempts then (true, s1)
  else if cfg.max_attempts ≤ attempts.length then
    (true, fun k =>
      if k = key then attempts ++ [⟨now, some (now + cfg.block_minutes)⟩] else s1 k)
  else (false, s1)

/-- `InMemoryThrottlingService.record_attempt`. -/
def record_attempt (now : Nat) (s : AttemptsMap) (id idt action : String) : AttemptsMap :=
  let key : ThrottleKey := (id, idt, action)
  fun k => if k = key then s key ++ [⟨now, none⟩] else s k

/-- `InMemoryThrottlingService.reset_attempts`. -/
def reset_attempts (s : AttemptsMap) (id idt action : String) : AttemptsMap :=
  let key : ThrottleKey := (id, idt, action)
  fun k => if k = key then [] else s k

theorem mem_of_getLast?_eq {l : List α} {a : α} (h : l.getLast? = some a) : a ∈ l := by
  obtain ⟨hne, hx⟩ := List.mem_getLast?_eq_getLast (show a ∈ l.getLast? from h)
  rw [hx]
  exact List.getLast_mem hne

theorem last_block_active_of_no_block {now : Nat} {l : List Attempt}
    (h : ∀ a ∈ l, a.blocked_until = none) : last_block_active now l = false := by
  unfold last_block_active
  cases hl : l.getLast? with
  | none => rfl
  | some a => simp [h a (mem_of_getLast?_eq hl)]

theorem config_for_max_attempts_pos (action : String) :
    1 ≤ (config_for action).max_attempts := by
  unfold config_for
  split
  · decide
  · split
    · decide
    · decide

theorem foldl_record_attempt (id idt action : String) (times : List Nat) :
    (times.foldl (fun s t => record_attempt t s id idt action) emptyAttempts)
        (id, idt, action)
      = times.map (fun t => Attempt.mk t none) := by
  suffices h : ∀ (ts : List Nat) (s : AttemptsMap),
      (ts.foldl (fun s t => record_attempt t s id idt action) s) (id, idt, action)
        = s (id, idt, action) ++ ts.map (fun t => Attempt.mk t none) by
    simpa [emptyAttempts] using h times emptyAttempts
  intro ts
  induction ts with
  | nil => intro s; simp
  | cons t rest ih =>
    intro s
    rw [List.foldl_cons, ih]
    simp [record_attempt]

/-- C3: for every key and every config (as selected by the action), after
exactly `max_attempts` attempts recorded within the window, the next
`check_throttling` reports throttled; after `reset_attempts`, it reports
not throttled again. -/
theorem throttling_cap (id idt action : String) (times : List Nat) (now : Nat)
    (s : AttemptsMap)
    (hs : s = times.foldl (fun s t => record_attempt t s id idt action) emptyAttempts)
    (hlen : times.length = (config_for action).max_attempts)
    (hwin : ∀ t ∈ times, now - (config_for action).window_minutes ≤ t) :
    (check_throttling now s id idt action).1 = true ∧
    (check_throttling now (reset_attempts s id idt action) id idt action).1 = false := by
  constructor
  · have hkey : s (id, idt, action) = times.map (fun t => Attempt.mk t none) := by
      rw [hs]; exact foldl_record_attempt id idt action times
    have hclean : cleanup_old_attempts now s (id, idt, action) (id, idt, action)
        = times.map (fun t => Attempt.mk t none) := by
      simp only [cleanup_old_attempts, if_pos rfl, hkey]
      rw [List.filter_eq_self]
      intro a ha
      obtain ⟨t, ht, rfl⟩ := List.mem_map.mp ha
      simpa using hwin t ht
    have hmax : (config_for action).max_attempts
        ≤ (times.map (fun t => Attempt.mk t none)).length := by
      rw [List.length_map, hlen]
    have hb : last_block_active now (times.map (fun t => Attempt.mk t none)) = false := by
      refine last_block_active_of_no_block ?_
      intro a ha
      obtain ⟨t, ht, hta⟩ := List.mem_map.mp ha
      subst hta
      rfl
    simp only [check_throttling, hclean, hb]
    rw [if_neg (by simp), if_pos hmax]
  · have hclean : cleanup_old_attempts now (reset_attempts s id idt action)
        (id, idt, action) (id, idt, action) = [] := by
      simp [cleanup_old_attempts, reset_attempts]
    have hpos := config_for_max_attempts_pos action
    have hb : last_block_active now ([] : List Attempt) = false := rfl
    simp only [check_throttling, hclean, hb]
    rw [if_neg (by simp), List.length_nil,
      if_neg (by omega : ¬ ((config_for action).max_attempts ≤ 0))]

/-- C3 witness: `throttling_cap` for the IP key `1.2.3.4` on the
`initiate_auth` action (`max_attempts = 5`), five attempts at minutes
0..4 and a check at minute 30. -/
theorem throttling_cap_witness :
    (check_throttling 30
      ([0, 1, 2, 3, 4].foldl
        (fun s t => record_attempt t s "1.2.3.4" "ip" "initiate_auth") emptyAttempts)
      "1.2.3.4" "ip" "initiate_auth").1 = true ∧
    (check_throttling 30
      (reset_attempts
        ([0, 1, 2, 3, 4].foldl
          (fun s t => record_attempt t s "1.2.3.4" "ip" "initiate_auth") emptyAttempts)
        "1.2.3.4" "ip" "initiate_auth")
      "1.2.3.4" "ip" "initiate_auth").1 = false := by
  exact throttling_cap "1.2.3.4" "ip" "initiate_auth" [0, 1, 2, 3, 4] 30 _ rfl
    (by decide) (by decide)

/-! ### `app/models.py`: `VerificationCode` attempts -/

/-- The `VerificationCode` columns involved in the attempt cap: the
`attempts` counter and the single-use `used` flag. -/
structure VerificationCode where
  attempts : Nat
  used : Bool
  deriving DecidableEq, Repr

/-- `VerificationCode.increment_attempts`: `self.attempts += 1; return
self.attempts >= 3`, returning the updated row and the flag. -/
def VerificationCode.increment_attempts (v : VerificationCode) : VerificationCode × Bool :=
  let v' := { v with attempts := v.attempts + 1 }
  (v', decide (3 ≤ v'.attempts))

/-- C8: `increment_attempts` adds one to the stored counter and returns
`True` exactly when the new count has reached 3, that is, starting from
`attempts = a` it returns `True` iff `a + 1 >= 3`. -/
theorem increment_attempts_spec (v : VerificationCode) :
    (v.increment_attempts.1.attempts = v.attempts + 1 ∧
      v.increment_attempts.1.used = v.used) ∧
    (v.increment_attempts.2 = true ↔ 3 ≤ v.attempts + 1) := by
  refine ⟨⟨rfl, rfl⟩, ?_⟩
  simp [VerificationCode.increment_attempts]

/-! ### Python string truthiness and `strip`

`pyIsSpace` covers the ASCII whitespace characters Python's `str.strip`
removes; messages are modelled over this alphabet. -/

def pyIsSpace (c : Char) : Bool :=
  c = ' ' || c = '\t' || c = '\n' || c = '\x0d' || c = '\x0b' || c = '\x0c'

/-- Python `s.strip()`: leading and trailing whitespace removed. -/
def pyStrip (s : String) : String :=
  ⟨((s.data.dropWhile pyIsSpace).reverse.dropWhile pyIsSpace).reverse⟩

/-- The Python test `not s or not s.strip()` on a non-`None` string. -/
def pyBlank (s : String) : Bool :=
  s == "" || pyStrip s == ""

theorem pyBlank_iff_all_space (s : String) :
    pyBlank s = true ↔ s.data.all pyIsSpace = true := by
  unfold pyBlank pyStrip
  rw [Bool.or_eq_true_iff, List.all_eq_true]
  constructor
  · intro h
    rcases h with h1 | h2
    · have hs : s = "" := beq_iff_eq.mp h1
      subst hs
      intro c hc
      cases hc
    · have hnil : (s.data.dropWhile pyIsSpace).reverse.dropWhile pyIsSpace = [] := by
        have hs := beq_iff_eq.mp h2
        rw [← List.reverse_eq_nil_iff]
        simpa [String.ext_iff] using hs
      have hall : ∀ x ∈ (s.data.dropWhile pyIsSpace).reverse, pyIsSpace x = true :=
        fun x hx => List.dropWhile_eq_nil_iff.mp hnil x hx
      intro c hc
      by_contra hns
      have hne : s.data.dropWhile pyIsSpace ≠ [] := by
        intro hdrop
        exact hns (List.dropWhile_eq_nil_iff.mp hdrop c hc)
      have hlen : 0 < (s.data.dropWhile pyIsSpace).length := List.length_pos.mpr hne
      have hhead := List.dropWhile_get_zero_not (p := pyIsSpace) s.data hlen
      exact hhead (hall _ (List.mem_reverse.mpr (List.get_mem _ _ _)))
  · intro h
    refine Or.inr ?_
    have hnil : s.data.dropWhile pyIsSpace = [] := List.dropWhile_eq_nil_iff.mpr h
    rw [hnil]
    simp

/-! ### `app/intent_analyzer.py`

The abstract `LLMProvider.analyze_intent` returns an arbitrary dictionary,
modelled as an opaque payload type `β`; a raised provider exception is an
`Except.error` with its message.  `IntentResult(raw_message=message,
**analysis_result)` keeps the raw message next to that payload.  The
`message` argument is `Option String` so that `analyze(None)` is
representable; `not message or not message.strip()` short-circuits, so
`None` never reaches `.strip()`. -/

structure IntentResult (β : Type) where
  raw_message : String
  analysis : β

/-- The two failure modes of `IntentAnalyzer.analyze`: its own
`ValueError("Message cannot be empty")` and a propagated provider
exception. -/
inductive AnalyzeError where
  | validation
  | provider (msg : String)
  deriving DecidableEq, Repr

/-- `IntentAnalyzer.analyze`. -/
def analyze (llm_provider : String → Option γ → Except String β)
    (message : Option String) (context : Option γ) :
    Except AnalyzeError (IntentResult β) :=
  match message with
  | none => .error .validation
  | some s =>
    if pyBlank s then .error .validation
    else
      match llm_provider s context with
      | .ok r => .ok ⟨s, r⟩
      | .error e => .error (.provider e)

/-- `IntentAnalyzer.analyze_batch`: per-message `try/except` that drops
failed messages and keeps going. -/
def analyze_batch (llm_provider : String → Option γ → Except String β)
    (messages : List (Option String)) (context : Option γ) : List (IntentResult β) :=
  match messages with
  | [] => []
  | m :: rest =>
    match analyze llm_provider m context with
    | .ok r => r :: analyze_batch llm_provider rest context
    | .error _ => analyze_batch llm_provider rest context

/-- C6: `analyze` fails with the validation error exactly on `None`,
empty or all-whitespace messages, and on any other message it calls the
provider and wraps a successful analysis in an `IntentResult` carrying
the raw message. -/
theorem analyze_validation (llm_provider : String → Option γ → Except String β)
    (context : Option γ) :
    analyze llm_provider none context = .error .validation ∧
    (∀ s : String,
      analyze llm_provider (some s) context = .error .validation
        ↔ s.data.all pyIsSpace = true) ∧
    (∀ (s : String) (r : β), s.data.all pyIsSpace = false →
      llm_provider s context = .ok r →
      analyze llm_provider (some s) context = .ok ⟨s, r⟩) := by
  refine ⟨rfl, ?_, ?_⟩
  · intro s
    constructor
    · intro h
      by_contra hns
      have hb : pyBlank s = false := by
        rcases Bool.eq_false_or_eq_true (pyBlank s) with ht | hf
        · exact absurd ((pyBlank_iff_all_space s).mp ht) hns
        · exact hf
      rw [analyze, if_neg (by simp [hb])] at h
      cases hp : llm_provider s context with
      | ok r => rw [hp] at h; cases h
      | error e => rw [hp] at h; cases h
    · intro h
      rw [analyze, if_pos ((pyBlank_iff_all_space s).mpr h)]
  · intro s r hns hp
    have hb : pyBlank s = false := by
      rcases Bool.eq_false_or_eq_true (pyBlank s) with ht | hf
      · rw [(pyBlank_iff_all_space s).mp ht] at hns; cases hns
      · exact hf
    rw [analyze, if_neg (by simp [hb]), hp]

/-- C6 witness: `analyze_validation` for a concrete provider: `None`,
`""` and `"  "` fail with the validation error, while `"hi"` reaches the
provider and yields an `IntentResult`. -/
theorem analyze_validation_witness :
    analyze (fun s (_ : Option Unit) => Except.ok s.length) none none
      = .error .validation ∧
    analyze (fun s (_ : Option Unit) => Except.ok s.length) (some "") none
      = .error .validation ∧
    analyze (fun s (_ : Option Unit) => Except.ok s.length) (some "  ") none
      = .error .validation ∧
    analyze (fun s (_ : Option Unit) => Except.ok s.length) (some "hi") none
      = .ok ⟨"hi", 2⟩ := by
  refine ⟨(analyze_validation _ none).1, ?_, ?_, ?_⟩
  · exact ((analyze_validation _ none).2.1 "").mpr (by decide)
  · exact ((analyze_validation _ none).2.1 "  ").mpr (by decide)
  · exact (analyze_validation _ none).2.2 "hi" 2 (by decide) rfl

/-- C5: `analyze_batch` returns exactly the successful analyses, in input
order, dropping every failing message with no partial-result indicator; a
two-message batch with one failing and one succeeding message yields
exactly the one successful result. -/
theorem analyze_batch_spec (llm_provider : String → Option γ → Except String β)
    (context : Option γ) :
    (∀ messages : List (Option String),
      analyze_batch llm_provider messages context
        = messages.filterMap (fun m => (analyze llm_provider m context).toOption)) ∧
    (∀ (m1 m2 : Option String) (e : AnalyzeError) (r : IntentResult β),
      analyze llm_provider m1 context = .error e →
      analyze llm_provider m2 context = .ok r →
      analyze_batch llm_provider [m1, m2] context = [r]) := by
  have hmain : ∀ messages : List (Option String),
      analyze_batch llm_provider messages context
        = messages.filterMap (fun m => (analyze llm_provider m context).toOption) := by
    intro messages
    induction messages with
    | nil => rfl
    | cons m rest ih =>
      rw [analyze_batch]
      cases h : analyze llm_provider m context with
      | ok r => simp [List.filterMap_cons, h, Except.toOption, ih]
      | error e => simp [List.filterMap_cons, h, Except.toOption, ih]
  refine ⟨hmain, ?_⟩
  intro m1 m2 e r h1 h2
  rw [hmain [m1, m2]]
  simp [List.filterMap_cons, h1, h2, Except.toOption]

/-- C5 witness: `analyze_batch_spec` for a concrete provider and the
two-message batch `[""` (fails validation), `"hi"` (succeeds)`]`. -/
theorem analyze_batch_spec_witness :
    analyze_batch (fun s (_ : Option Unit) => Except.ok s.length)
        [some "", some "hi"] none
      = [⟨"hi", 2⟩] ∧
    (analyze_batch (fun s (_ : Option Unit) => Except.ok s.length)
        [some "", some "hi"] none).length = 1 := by
  have h := (analyze_batch_spec (fun s (_ : Option Unit) => Except.ok s.length) none).2
    (some "") (some "hi") .validation ⟨"hi", 2⟩ rfl rfl
  exact ⟨h, by rw [h]; rfl⟩

/-! ### `app/prompt_crafter.py`: `MultiProviderPromptCrafter`

A provider's `generate_prompt` returns an arbitrary dictionary; the keys
the crafter reads (`prompts`, `prompt_types`, `prompt_names`, `metadata`,
and whether `metadata` contains `processing_time_ms` or an `error` key)
are modelled as optional fields, everything else is dropped.  A raised
exception is an `Except.error` carrying `str(e)`. -/

structure ProviderMeta where
  provider : Option String
  processing_time_ms : Option Nat
  error_key : Bool
  deriving DecidableEq, Repr

structure ProviderEntry where
  error : Option String
  prompts : Option (List String)
  prompt_types : Option (List String)
  prompt_names : Option (List String)
  metadata : Option ProviderMeta
  deriving DecidableEq, Repr

/-- `result.get('metadata', {})`. -/
def metadata_of (r : ProviderEntry) : ProviderMeta :=
  r.metadata.getD { provider := none, processing_time_ms := none, error_key := false }

/-- The test `'error' in result.get('metadata', {})`. -/
def meta_has_error (r : ProviderEntry) : Bool :=
  (metadata_of r).error_key

/-- The entry recorded for a provider whose `generate_prompt` raised. -/
def error_entry (provider_name e : String) : ProviderEntry :=
  { error := some e
    prompts := some []
    prompt_types := some []
    prompt_names := some []
    metadata := some (ProviderMeta.mk (some provider_name) none true) }

abbrev PromptProvider := String → Option String → Except String ProviderEntry

/-- The entry `craft_prompts_multi_provider` records for a provider: its
result on success, the error entry on an exception. -/
def entry_for (name : String) (p : PromptProvider) (user_input : String)
    (context : Option String) : ProviderEntry :=
  match p user_input context with
  | .ok r => r
  | .error e => error_entry name e

structure CombinedMeta where
  language : String
  prompt_count : Nat
  processing_time_ms : Nat
  providers_used : List String
  successful_providers : List String
  deriving DecidableEq, Repr

/-- The `PromptResult` fields `craft_prompts_multi_provider` fills (the
generated `id` and `timestamp` are nondeterministic and omitted). -/
structure PromptResult where
  raw_input : String
  prompts : List String
  prompt_types : List String
  prompt_names : List String
  metadata : CombinedMeta
  context : Option String
  provider_results : List (String × ProviderEntry)
  deriving DecidableEq, Repr

/-- One iteration of the provider loop of `craft_prompts_multi_provider`,
threading `(provider_results, all_prompts, all_prompt_types,
all_prompt_names)`. -/
def craft_step (user_input : String) (context : Option String)
    (acc : List (String × ProviderEntry) × List String × List String × List String)
    (np : String × PromptProvider) :
    List (String × ProviderEntry) × List String × List String × List String :=
  match np.2 user_input context with
  | .ok result =>
    let all_prompts :=
      match result.prompts with
      | some ps => acc.2.1 ++ ps
      | none => acc.2.1
    let all_prompt_types :=
      match result.prompts with
      | some _ => acc.2.2.1 ++ (result.prompt_types.getD []).map (fun t => np.1 ++ "_" ++ t)
      | none => acc.2.2.1
    let all_prompt_names :=
      match result.prompt_names with
      | some ns => acc.2.2.2 ++ ns
      | none => acc.2.2.2
    (acc.1 ++ [(np.1, result)], all_prompts, all_prompt_types, all_prompt_names)
  | .error e =>
    (acc.1 ++ [(np.1, error_entry np.1 e)], acc.2.1, acc.2.2.1, acc.2.2.2)

/-- `MultiProviderPromptCrafter.craft_prompts_multi_provider`.  The
provider dict becomes a list of name/provider pairs in insertion order. -/
def craft_prompts_multi_provider (providers : List (String × PromptProvider))
    (user_input : String) (context : Option String) : Except String PromptResult :=
  if pyBlank user_input then .error "User input cannot be empty"
  else
    let acc := providers.foldl (craft_step user_input context) ([], [], [], [])
    .ok
      { raw_input := user_input
        prompts := acc.2.1
        prompt_types := acc.2.2.1
        prompt_names := acc.2.2.2
        metadata :=
          { language := "en"
            prompt_count := acc.2.1.length
            processing_time_ms :=
              ((acc.1.filter (fun nr => !(meta_has_error nr.2))).map
                (fun nr => (metadata_of nr.2).processing_time_ms.getD 0)).sum
            providers_used := providers.map Prod.fst
            successful_providers :=
              (acc.1.filter (fun nr => !(meta_has_error nr.2))).map Prod.fst }
        context := context
        provider_results := acc.1 }

theorem craft_step_results (user_input : String) (context : Option String)
    (acc : List (String × ProviderEntry) × List String × List String × List String)
    (np : String × PromptProvider) :
    (craft_step user_input context acc np).1
      = acc.1 ++ [(np.1, entry_for np.1 np.2 user_input context)] := by
  cases h : np.2 user_input context <;> simp [craft_step, entry_for, h]

theorem craft_fold_results (user_input : String) (context : Option String) :
    ∀ (ps : List (String × PromptProvider))
      (acc : List (String × ProviderEntry) × List String × List String × List String),
      (ps.foldl (craft_step user_input context) acc).1
        = acc.1 ++ ps.map (fun np => (np.1, entry_for np.1 np.2 user_input context)) := by
  intro ps
  induction ps with
  | nil => intro acc; simp
  | cons np rest ih =>
    intro acc
    rw [List.foldl_cons, ih]
    rw [craft_step_results]
    simp

theorem filter_of_map (f : α → β) (p : β → Bool) (l : List α) :
    (l.map f).filter p = (l.filter (fun a => p (f a))).map f := by
  induction l with
  | nil => rfl
  | cons a rest ih => cases h : p (f a) <;> simp [List.filter_cons, h, ih]

/-- A provider that succeeds but whose metadata dictionary happens to
contain an `error` key. -/
def sneaky_provider : PromptProvider := fun _ _ =>
  .ok
    { error := none
      prompts := some ["x"]
      prompt_types := some ["t"]
      prompt_names := some ["n"]
      metadata := some (ProviderMeta.mk (some "p") (some 5) true) }

/-- A well-behaved provider reporting a 150ms processing time. -/
def good_provider : PromptProvider := fun _ _ =>
  .ok
    { error := none
      prompts := some ["a", "b"]
      prompt_types := some ["direct"]
      prompt_names := none
      metadata := some (ProviderMeta.mk (some "ok1") (some 150) false) }

/-- A provider whose `generate_prompt` raises. -/
def bad_provider : PromptProvider := fun _ _ => .error "boom"

def demo_providers : List (String × PromptProvider) :=
  [("ok1", good_provider), ("bad", bad_provider)]

/-- C4 counterexample: a single provider that succeeds but whose returned
metadata contains an `error` key is left out of
`metadata.successful_providers`, although it did not fail — the code
keys "success" on the metadata `error` flag, not on whether
`generate_prompt` raised. -/
theorem craft_successful_providers_cex :
    (sneaky_provider "hi" none).toOption.isSome = true ∧
    (craft_prompts_multi_provider [("p", sneaky_provider)] "hi" none).map
      (fun r => r.metadata.successful_providers) = .ok [] :=
  ⟨rfl, rfl⟩

/-- C4 (amended): provided no succeeding provider reports metadata with an
`error` key, `craft_prompts_multi_provider` records one entry per
configured provider in order, gives every failing provider an entry with
an `error` field and an empty prompts list while iteration continues,
lists exactly the non-failing providers in `successful_providers`, and
sums `processing_time_ms` over exactly those providers. -/
theorem craft_multi_provider_spec (providers : List (String × PromptProvider))
    (user_input : String) (context : Option String)
    (hok : ∀ np ∈ providers, ∀ r : ProviderEntry,
      np.2 user_input context = .ok r → meta_has_error r = false) :
    ∀ res : PromptResult,
      craft_prompts_multi_provider providers user_input context = .ok res →
      res.provider_results
          = providers.map (fun np => (np.1, entry_for np.1 np.2 user_input context)) ∧
      (∀ np ∈ providers, ∀ e : String, np.2 user_input context = .error e →
        (entry_for np.1 np.2 user_input context).error = some e ∧
        (entry_for np.1 np.2 user_input context).prompts = some []) ∧
      res.metadata.successful_providers
          = (providers.filter
              (fun np => (np.2 user_input context).toOption.isSome)).map Prod.fst ∧
      res.metadata.processing_time_ms
          = ((providers.filter (fun np => (np.2 user_input context).toOption.isSome)).map
              (fun np =>
                (metadata_of (entry_for np.1 np.2 user_input context)).processing_time_ms.getD
                  0)).sum := by
  intro res hres
  rw [craft_prompts_multi_provider] at hres
  by_cases hb : pyBlank user_input
  · rw [if_pos hb] at hres
    cases hres
  · rw [if_neg hb] at hres
    injection hres with hres
    subst hres
    have hfold := craft_fold_results user_input context providers ([], [], [], [])
    have hqcongr : ∀ np ∈ providers,
        (!(meta_has_error (entry_for np.1 np.2 user_input context)))
          = (np.2 user_input context).toOption.isSome := by
      intro np hnp
      cases h : np.2 user_input context with
      | ok r =>
        simp only [entry_for, h]
        rw [hok np hnp r h]
        rfl
      | error e =>
        simp [entry_for, h, meta_has_error, metadata_of, error_entry, Except.toOption]
    refine ⟨by simpa using hfold, ?_, ?_, ?_⟩
    · intro np hnp e he
      constructor
      · simp [entry_for, he, error_entry]
      · simp [entry_for, he, error_entry]
    · show ((providers.foldl (craft_step user_input context) ([], [], [], [])).1.filter
            (fun nr => !(meta_has_error nr.2))).map Prod.fst
          = (providers.filter (fun np => (np.2 user_input context).toOption.isSome)).map
              Prod.fst
      rw [hfold, List.nil_append, filter_of_map, List.map_map]
      rw [List.filter_congr (fun np hnp => hqcongr np hnp)]
      rfl
    · show (((providers.foldl (craft_step user_input context) ([], [], [], [])).1.filter
            (fun nr => !(meta_has_error nr.2))).map
              (fun nr => (metadata_of nr.2).processing_time_ms.getD 0)).sum
          = ((providers.filter (fun np => (np.2 user_input context).toOption.isSome)).map
              (fun np =>
                (metadata_of
                  (entry_for np.1 np.2 user_input context)).processing_time_ms.getD 0)).sum
      rw [hfold, List.nil_append, filter_of_map, List.map_map]
      rw [List.filter_congr (fun np hnp => hqcongr np hnp)]
      rfl

/-- C4 witness: `craft_multi_provider_spec` on one succeeding provider
(`ok1`, reporting 150ms) and one raising provider (`bad`). -/
theorem craft_multi_provider_spec_witness :
    (craft_prompts_multi_provider demo_providers "hi" none).map
        (fun r => r.metadata.successful_providers) = .ok ["ok1"] ∧
    (craft_prompts_multi_provider demo_providers "hi" none).map
        (fun r => r.metadata.processing_time_ms) = .ok 150 ∧
    (craft_prompts_multi_provider demo_providers "hi" none).map
        (fun r => r.provider_results.map Prod.fst) = .ok ["ok1", "bad"] := by
  have hok : ∀ np ∈ demo_providers, ∀ r : ProviderEntry,
      np.2 "hi" none = .ok r → meta_has_error r = false := by
    intro np hnp r hr
    rcases (by simpa [demo_providers] using hnp :
        np = ("ok1", good_provider) ∨ np = ("bad", bad_provider)) with rfl | rfl
    · simp only [good_provider] at hr
      injection hr with hr
      rw [← hr]
      rfl
    · simp only [bad_provider] at hr
      cases hr
  have h := craft_multi_provider_spec demo_providers "hi" none hok _ rfl
  exact ⟨congrArg Except.ok (h.2.2.1.trans rfl),
    congrArg Except.ok (h.2.2.2.trans rfl),
    congrArg Except.ok ((congrArg (fun l => l.map Prod.fst) h.1).trans rfl)⟩

/-! ### `app/chat_llm_providers.py`

Message preparation in `generate_response` of the OpenAI and Anthropic
chat providers.  Text is modelled as a list of Unicode codepoints
(`List Nat`) so that byte-level UTF-8 decoding is expressible; file
contents are byte lists, supplied as a parameter standing for
`open(file_path, 'rb').read()`. -/

/-- A UTF-8 continuation byte (`0x80..0xBF`). -/
def utf8_cont (b : Nat) : Bool :=
  decide (0x80 ≤ b ∧ b ≤ 0xBF)

/-- The admissible second byte after a given 3-byte lead (`0xE0` demands
`0xA0..0xBF`, `0xED` demands `0x80..0x9F`, the rest a plain continuation
byte), excluding overlong encodings and surrogates as CPython does. -/
def utf8_cont3 (lead c : Nat) : Bool :=
  if lead = 0xE0 then decide (0xA0 ≤ c ∧ c ≤ 0xBF)
  else if lead = 0xED then decide (0x80 ≤ c ∧ c ≤ 0x9F)
  else utf8_cont c

/-- The admissible second byte after a given 4-byte lead (`0xF0` demands
`0x90..0xBF`, `0xF4` demands `0x80..0x8F`). -/
def utf8_cont4 (lead c : Nat) : Bool :=
  if lead = 0xF0 then decide (0x90 ≤ c ∧ c ≤ 0xBF)
  else if lead = 0xF4 then decide (0x80 ≤ c ∧ c ≤ 0x8F)
  else utf8_cont c

/-- One decoding step: given a lead byte and the following bytes, the
decoded codepoint (or `none` for an invalid sequence) and how many bytes
beyond the lead were consumed — for an invalid sequence, the maximal
valid subpart, which CPython's error handlers skip. -/
def utf8_step (b : Nat) (rest : List Nat) : Option Nat × Nat :=
  if b ≤ 0x7F then (some b, 0)
  else if 0xC2 ≤ b ∧ b ≤ 0xDF then
    match rest with
    | c1 :: _ =>
      if utf8_cont c1 then (some ((b - 0xC0) * 0x40 + (c1 - 0x80)), 1) else (none, 0)
    | [] => (none, 0)
  else if 0xE0 ≤ b ∧ b ≤ 0xEF then
    match rest with
    | c1 :: rest1 =>
      if utf8_cont3 b c1 then
        match rest1 with
        | c2 :: _ =>
          if utf8_cont c2 then
            (some ((b - 0xE0) * 0x1000 + (c1 - 0x80) * 0x40 + (c2 - 0x80)), 2)
          else (none, 1)
        | [] => (none, 1)
      else (none, 0)
    | [] => (none, 0)
  else if 0xF0 ≤ b ∧ b ≤ 0xF4 then
    match rest with
    | c1 :: rest1 =>
      if utf8_cont4 b c1 then
        match rest1 with
        | c2 :: rest2 =>
          if utf8_cont c2 then
            match rest2 with
            | c3 :: _ =>
              if utf8_cont c3 then
                (some ((b - 0xF0) * 0x40000 + (c1 - 0x80) * 0x1000
                  + (c2 - 0x80) * 0x40 + (c3 - 0x80)), 3)
              else (none, 2)
            | [] => (none, 2)
          else (none, 1)
        | [] => (none, 1)
      else (none, 0)
    | [] => (none, 0)
  else (none, 0)

/-- Fuelled decoding driver (each step consumes at least the lead byte,
so `l.length` fuel always suffices); `repl` is what an invalid run
becomes: `[]` for `errors='ignore'`, `[0xFFFD]` for `errors='replace'`. -/
def utf8_decode_go (repl : List Nat) : Nat → List Nat → List Nat
  | 0, _ => []
  | _, [] => []
  | fuel + 1, b :: rest =>
    let step := utf8_step b rest
    (match step.1 with
      | some cp => [cp]
      | none => repl) ++ utf8_decode_go repl fuel (rest.drop step.2)

/-- Python `bytes.decode('utf-8', errors='ignore')`: invalid byte runs are
dropped. -/
def utf8_decode_ignore (l : List Nat) : List Nat :=
  utf8_decode_go [] l.length l

/-- Modelled from the spec: `bytes.decode('utf-8', errors='replace')`,
the behaviour the spec describes ("replacing undecodable bytes"), each
invalid run replaced by U+FFFD; stated only to compare against
`utf8_decode_ignore`, which is what the code runs. -/
def utf8_decode_replace (l : List Nat) : List Nat :=
  utf8_decode_go [0xFFFD] l.length l

/-- `str.lower()` restricted to ASCII, as applied to file extensions. -/
def pyLowerChar (c : Char) : Char :=
  if 'A' ≤ c ∧ c ≤ 'Z' then Char.ofNat (c.toNat + 32) else c

def pyLower (s : String) : String :=
  ⟨s.data.map pyLowerChar⟩

/-- The extension part of `os.path.splitext(p)`: the suffix of the
basename from its last dot, unless every character before that dot in the
basename is itself a dot. -/
def splitext_ext (p : String) : String :=
  let base := (p.data.reverse.takeWhile (fun c => c ≠ '/')).reverse
  let revBase := base.reverse
  let afterDot := revBase.takeWhile (fun c => c ≠ '.')
  match revBase.dropWhile (fun c => c ≠ '.') with
  | [] => ""
  | _ :: before =>
    if before.any (fun c => c ≠ '.') then ⟨'.' :: afterDot.reverse⟩ else ""

def image_extensions : List String :=
  [".jpg", ".jpeg", ".png", ".gif", ".webp"]

/-- The six-bit-to-character table of standard base64. -/
def b64char (n : Nat) : Nat :=
  if n < 26 then 65 + n
  else if n < 52 then 97 + (n - 26)
  else if n < 62 then 48 + (n - 52)
  else if n = 62 then 43
  else 47

/-- `base64.b64encode`, as a codepoint list (61 is `'='`). -/
def base64_encode : List Nat → List Nat
  | b1 :: b2 :: b3 :: rest =>
    let x := (b1 % 256) * 0x10000 + (b2 % 256) * 0x100 + (b3 % 256)
    b64char (x / 0x40000) :: b64char (x / 0x1000 % 64) :: b64char (x / 64 % 64)
      :: b64char (x % 64) :: base64_encode rest
  | [b1, b2] =>
    let x := (b1 % 256) * 0x400 + (b2 % 256) * 4
    [b64char (x / 0x1000), b64char (x / 64 % 64), b64char (x % 64), 61]
  | [b1] =>
    let x := (b1 % 256) * 0x10
    [b64char (x / 64), b64char (x % 64), 61, 61]
  | [] => []

/-- A codepoint list from a string literal. -/
def strCodes (s : String) : List Nat :=
  s.data.map Char.toNat

/-- A chat message handed to `generate_response`: a `role`/`content`
dictionary. -/
structure ChatMsg where
  role : String
  content : List Nat
  deriving DecidableEq, Repr

/-- The truthiness test `if file_path and ...` on an optional string. -/
def pyTruthyPath (fp : Option String) : Bool :=
  match fp with
  | none => false
  | some s => !(s == "")

/-- Content of a prepared OpenAI message: plain text, or a text part plus
an `image_url` part with a base64 data URL. -/
inductive OpenAIContent where
  | text (t : List Nat)
  | withImage (t : List Nat) (image_url : List Nat)
  deriving DecidableEq, Repr

structure OpenAIMsg where
  role : String
  content : OpenAIContent
  deriving DecidableEq, Repr

/-- The `data:image/{ext};base64,{...}` URL built for an image file. -/
def image_data_url (ext : String) (file_content : List Nat) : List Nat :=
  strCodes "data:image/" ++ strCodes (ext.drop 1) ++ strCodes ";base64,"
    ++ base64_encode file_content

/-- The text built for a non-image file:
`f"{msg['content']}\n\nFile content:\n{file_text}"` with
`file_text = file_content.decode('utf-8', errors='ignore')`. -/
def file_appended_text (content : List Nat) (file_content : List Nat) : List Nat :=
  content ++ strCodes "\n\nFile content:\n" ++ utf8_decode_ignore file_content

/-- The message-preparation loop of `ChatOpenAIProvider.generate_response`;
`last?` is `messages[-1]`, `file_content` the bytes read from
`file_path`. -/
def prepare_openai_go (fp : Option String) (file_content : List Nat)
    (last? : Option ChatMsg) : List ChatMsg → List OpenAIMsg
  | [] => []
  | m :: rest =>
    let entry : List OpenAIMsg :=
      if m.role = "system" then [⟨"system", .text m.content⟩]
      else if m.role = "user" then
        if pyTruthyPath fp ∧ some m = last? then
          let ext := pyLower (splitext_ext (fp.getD ""))
          if ext ∈ image_extensions then
            [⟨"user", .withImage m.content (image_data_url ext file_content)⟩]
          else
            [⟨"user", .text (file_appended_text m.content file_content)⟩]
        else [⟨"user", .text m.content⟩]
      else if m.role = "assistant" then [⟨"assistant", .text m.content⟩]
      else []
    entry ++ prepare_openai_go fp file_content last? rest

def prepare_openai_messages (messages : List ChatMsg) (fp : Option String)
    (file_content : List Nat) : List OpenAIMsg :=
  prepare_openai_go fp file_content messages.getLast? messages

/-- Content of a prepared Anthropic message: plain text, or a text part
plus a base64 image source. -/
inductive AnthropicContent where
  | text (t : List Nat)
  | withImage (t : List Nat) (media_type : List Nat) (data : List Nat)
  deriving DecidableEq, Repr

structure AnthropicMsg where
  role : String
  content : AnthropicContent
  deriving DecidableEq, Repr

/-- The message-preparation loop of
`ChatAnthropicProvider.generate_response`: system messages are skipped,
the trailing user message with a file is special-cased the same way. -/
def prepare_anthropic_go (fp : Option String) (file_content : List Nat)
    (last? : Option ChatMsg) : List ChatMsg → List AnthropicMsg
  | [] => []
  | m :: rest =>
    let entry : List AnthropicMsg :=
      if m.role = "system" then []
      else if m.role = "user" then
        if pyTruthyPath fp ∧ some m = last? then
          let ext := pyLower (splitext_ext (fp.getD ""))
          if ext ∈ image_extensions then
            [⟨"user", .withImage m.content (strCodes "image/" ++ strCodes (ext.drop 1))
              (base64_encode file_content)⟩]
          else
            [⟨"user", .text (file_appended_text m.content file_content)⟩]
        else [⟨"user", .text m.content⟩]
      else if m.role = "assistant" then [⟨"assistant", .text m.content⟩]
      else []
    entry ++ prepare_anthropic_go fp file_content last? rest

def prepare_anthropic_messages (messages : List ChatMsg) (fp : Option String)
    (file_content : List Nat) : List AnthropicMsg :=
  prepare_anthropic_go fp file_content messages.getLast? messages

/-- The `system` parameter extracted for the Anthropic call: the first
system message's content, if any. -/
def anthropic_system (messages : List ChatMsg) : Option (List Nat) :=
  (messages.find? (fun m => m.role = "system")).map ChatMsg.content

theorem prepare_openai_go_append (fp : Option String) (fc : List Nat)
    (last? : Option ChatMsg) (l1 l2 : List ChatMsg) :
    prepare_openai_go fp fc last? (l1 ++ l2)
      = prepare_openai_go fp fc last? l1 ++ prepare_openai_go fp fc last? l2 := by
  induction l1 with
  | nil => rfl
  | cons m rest ih =>
    simp only [List.cons_append, prepare_openai_go]
    rw [List.append_assoc]
    exact congrArg (fun t => _ ++ t) ih

theorem prepare_anthropic_go_append (fp : Option String) (fc : List Nat)
    (last? : Option ChatMsg) (l1 l2 : List ChatMsg) :
    prepare_anthropic_go fp fc last? (l1 ++ l2)
      = prepare_anthropic_go fp fc last? l1 ++ prepare_anthropic_go fp fc last? l2 := by
  induction l1 with
  | nil => rfl
  | cons m rest ih =>
    simp only [List.cons_append, prepare_anthropic_go]
    rw [List.append_assoc]
    exact congrArg (fun t => _ ++ t) ih

/-- C7 counterexample: for a trailing user message `"A"` with attached
file `/tmp/f.txt` whose bytes are `[0x41, 0xFF]`, both providers append
the `errors='ignore'` decoding (the invalid byte `0xFF` is dropped), not
the `errors='replace'` decoding the claim describes (which would insert
U+FFFD). -/
theorem chat_file_decode_cex :
    prepare_openai_messages [ChatMsg.mk "user" (strCodes "A")] (some "/tmp/f.txt") [65, 255]
      = [⟨"user", .text (strCodes "A" ++ strCodes "\n\nFile content:\n" ++ [65])⟩] ∧
    utf8_decode_ignore [65, 255] = [65] ∧
    utf8_decode_replace [65, 255] = [65, 0xFFFD] ∧
    file_appended_text (strCodes "A") [65, 255]
      ≠ strCodes "A" ++ strCodes "\n\nFile content:\n" ++ utf8_decode_replace [65, 255] := by
  refine ⟨by decide, by decide, by decide, by decide⟩

/-- C7 (amended): in both providers' `generate_response`, a trailing user
message with an attached truthy file path whose lowercased extension is
not an image extension gets the file bytes decoded as UTF-8 with
undecodable byte runs dropped (`errors='ignore'`), and the decoded text
appended to the message's text content after a `File content:` header. -/
theorem chat_file_text_append (init : List ChatMsg) (m : ChatMsg) (fp : String)
    (file_content : List Nat) (hrole : m.role = "user") (hfp : fp ≠ "")
    (hext : pyLower (splitext_ext fp) ∉ image_extensions) :
    prepare_openai_messages (init ++ [m]) (some fp) file_content
      = prepare_openai_go (some fp) file_content (some m) init
        ++ [⟨"user", .text (file_appended_text m.content file_content)⟩] ∧
    prepare_anthropic_messages (init ++ [m]) (some fp) file_content
      = prepare_anthropic_go (some fp) file_content (some m) init
        ++ [⟨"user", .text (file_appended_text m.content file_content)⟩] := by
  have hlast : (init ++ [m]).getLast? = some m := List.getLast?_concat init
  have htruthy : pyTruthyPath (some fp) = true := by
    simp [pyTruthyPath, hfp]
  constructor
  · rw [prepare_openai_messages, hlast, prepare_openai_go_append]
    congr 1
    simp only [prepare_openai_go, List.append_nil, hrole, Option.getD]
    rw [if_neg (by decide : ¬ ("user" = "system")), if_pos trivial,
      if_pos ⟨htruthy, trivial⟩, if_neg hext]
  · rw [prepare_anthropic_messages, hlast, prepare_anthropic_go_append]
    congr 1
    simp only [prepare_anthropic_go, List.append_nil, hrole, Option.getD]
    rw [if_neg (by decide : ¬ ("user" = "system")), if_pos trivial,
      if_pos ⟨htruthy, trivial⟩, if_neg hext]

/-- C7 witness: `chat_file_text_append` for a system message followed by
a trailing user message `"Hi"` with attached file `/tmp/notes.md` whose
bytes are `"hi"`. -/
theorem chat_file_text_append_witness :
    prepare_openai_messages
        ([ChatMsg.mk "system" (strCodes "S")] ++ [ChatMsg.mk "user" (strCodes "Hi")])
        (some "/tmp/notes.md") [104, 105]
      = prepare_openai_go (some "/tmp/notes.md") [104, 105]
          (some (ChatMsg.mk "user" (strCodes "Hi"))) [ChatMsg.mk "system" (strCodes "S")]
        ++ [⟨"user", .text (file_appended_text (strCodes "Hi") [104, 105])⟩] ∧
    prepare_anthropic_messages
        ([ChatMsg.mk "system" (strCodes "S")] ++ [ChatMsg.mk "user" (strCodes "Hi")])
        (some "/tmp/notes.md") [104, 105]
      = prepare_anthropic_go (some "/tmp/notes.md") [104, 105]
          (some (ChatMsg.mk "user" (strCodes "Hi"))) [ChatMsg.mk "system" (strCodes "S")]
        ++ [⟨"user", .text (file_appended_text (strCodes "Hi") [104, 105])⟩] :=
  chat_file_text_append [ChatMsg.mk "system" (strCodes "S")]
    (ChatMsg.mk "user" (strCodes "Hi")) "/tmp/notes.md" [104, 105] rfl
    (by decide) (by decide)

end Pershing
